import Mathlib

/-!
Shallow embedding of the LuminAIR proving core (crates/air, crates/prover)
and proofs of the specification claims about it.

Conventions:
* `M31` is the Mersenne-31 base field, embedded as `ZMod (2^31 - 1)`.
* SIMD-packed values (`PackedBaseField`, `PackedM31`, `PackedQM31`) are
  embedded as lists of lane values; packed arithmetic is lane-wise.
* Fallible Rust functions returning `Result` are embedded as `Except`.
* Imperative loops that write each index of a freshly allocated column
  exactly once are embedded either as maps over `List.range` (when the
  source loop is sequential) or as an explicit write schedule folded over
  the column (when the source uses a parallel iterator).
-/

namespace LuminAIR

/-- The Mersenne-31 prime p = 2^31 - 1 (spec §3, §6). -/
def M31_P : ℕ := 2 ^ 31 - 1

/-- The base field M31 = integers modulo 2^31 - 1 (spec §3). -/
abbrev M31 := ZMod M31_P

/-- Number of SIMD lanes (stwo `N_LANES` = 16). -/
def N_LANES : ℕ := 16

/-- Log2 of the number of SIMD lanes (stwo `LOG_N_LANES` = 4). -/
def LOG_N_LANES : ℕ := 4

/-- Loop body of Rust `usize::next_power_of_two`: starting from `power`,
double until `power >= n`.  The fuel argument makes the recursion
structural; `fuel = n` always suffices (see `nextPowerOfTwo_ge`). -/
def nptGo : ℕ → ℕ → ℕ → ℕ
  | 0, power, _ => power
  | fuel + 1, power, n => if power < n then nptGo fuel (power * 2) n else power

/-- Rust `usize::next_power_of_two`: the smallest power of two `>= n`
(and `1` for `n = 0`). -/
def nextPowerOfTwo (n : ℕ) : ℕ := nptGo n 1 n

/-- If the fuel bound makes `2 ^ fuel * power` reach `n`, the doubling loop
reaches `n`. -/
theorem nptGo_ge (fuel power n : ℕ) (h : n ≤ 2 ^ fuel * power) :
    n ≤ nptGo fuel power n := by
  induction fuel generalizing power with
  | zero => simpa [nptGo] using h
  | succ k ih =>
    by_cases hp : power < n
    · simp only [nptGo, if_pos hp]
      exact ih (power * 2) (by calc
        n ≤ 2 ^ (k + 1) * power := h
        _ = 2 ^ k * (power * 2) := by ring)
    · simpa [nptGo, if_neg hp] using Nat.le_of_not_lt hp

/-- The doubling loop keeps powers of two. -/
theorem nptGo_pow (fuel power n : ℕ) (h : ∃ j, power = 2 ^ j) :
    ∃ k, nptGo fuel power n = 2 ^ k := by
  induction fuel generalizing power with
  | zero => simpa [nptGo] using h
  | succ m ih =>
    by_cases hp : power < n
    · simp only [nptGo, if_pos hp]
      obtain ⟨j, hj⟩ := h
      exact ih (power * 2) ⟨j + 1, by rw [hj]; ring⟩
    · simpa [nptGo, if_neg hp] using h

/-- `nextPowerOfTwo n` is at least `n`. -/
theorem nextPowerOfTwo_ge (n : ℕ) : n ≤ nextPowerOfTwo n :=
  nptGo_ge n 1 n (by simpa using Nat.le_of_lt (Nat.lt_two_pow n))

/-- `nextPowerOfTwo n` is a power of two. -/
theorem nextPowerOfTwo_pow (n : ℕ) : ∃ k, nextPowerOfTwo n = 2 ^ k :=
  nptGo_pow n 1 n ⟨0, rfl⟩

/-- Loop body of Rust `usize::ilog2` (floor base-2 logarithm), with a fuel
argument making the recursion structural so that the kernel can evaluate it;
`fuel = n` always suffices (see `ilog2_eq_log2`). -/
def ilog2Go : ℕ → ℕ → ℕ
  | 0, _ => 0
  | fuel + 1, n => if 2 ≤ n then ilog2Go fuel (n / 2) + 1 else 0

/-- Rust `usize::ilog2`: the floor base-2 logarithm. -/
def ilog2 (n : ℕ) : ℕ := ilog2Go n n

/-- With enough fuel, the structural loop agrees with `Nat.log2`. -/
theorem ilog2Go_eq_log2 (fuel : ℕ) :
    ∀ n, n ≤ fuel → ilog2Go fuel n = Nat.log2 n := by
  induction fuel with
  | zero =>
    intro n hn
    interval_cases n
    simp [ilog2Go, Nat.log2]
  | succ m ih =>
    intro n hn
    rw [ilog2Go, Nat.log2]
    by_cases h2 : 2 ≤ n
    · rw [if_pos h2, if_pos h2, ih (n / 2) (by omega)]
    · rw [if_neg h2, if_neg h2]

/-- `ilog2` computes `Nat.log2`. -/
theorem ilog2_eq_log2 (n : ℕ) : ilog2 n = Nat.log2 n :=
  ilog2Go_eq_log2 n n le_rfl

/-! ## Exp2 component constraints (crates/air/src/components/exp2/component.rs) -/

/-- One row of the exp2 component main trace, in the order the columns are
read by `Exp2Eval::evaluate` via `next_trace_mask()`. -/
structure Exp2EvalRow where
  node_id : M31
  input_id : M31
  idx : M31
  is_last_idx : M31
  next_node_id : M31
  next_input_id : M31
  next_idx : M31
  input_val : M31
  out_val : M31
  rem_val : M31
  scale : M31
  input_mult : M31
  out_mult : M31

/-- The "consistency" constraint expression added by `Exp2Eval::evaluate`
(component.rs line 77): `out_val * input_val - out_val * input_val + rem_val`. -/
def exp2ConsistencyConstraint (input_val out_val rem_val : M31) : M31 :=
  out_val * input_val - out_val * input_val + rem_val

/-- The list of polynomial constraints added by `Exp2Eval::evaluate`, in
source order: the booleanity of `is_last_idx`, the "consistency" expression,
and the three transition constraints gated by `1 - is_last_idx`. -/
def exp2EvalConstraints (r : Exp2EvalRow) : List M31 :=
  [ r.is_last_idx * (r.is_last_idx - 1)
  , exp2ConsistencyConstraint r.input_val r.out_val r.rem_val
  , (1 - r.is_last_idx) * (r.next_node_id - r.node_id)
  , (1 - r.is_last_idx) * (r.next_input_id - r.input_id)
  , (1 - r.is_last_idx) * (r.next_idx - r.idx - 1) ]

/-- The Mersenne number 2^31 - 1 is prime (Lucas-Lehmer), so M31 is a field. -/
instance : Fact (Nat.Prime M31_P) :=
  ⟨by
    have h := lucas_lehmer_sufficiency 31 (by norm_num) (by norm_num)
    simpa [mersenne, M31_P] using h⟩

/-- C5: `Exp2Eval::evaluate` adds the booleanity constraint
`is_last_idx * (is_last_idx - 1)` on every row (constraint 0, satisfied
exactly when `is_last_idx` is 0 or 1), and the three transition constraints
gated by `(1 - is_last_idx)` (constraints 2, 3, 4): when `is_last_idx = 1`
all three evaluate to 0 (vacuously satisfied), and when `is_last_idx = 0`
they are satisfied exactly when `next_node_id = node_id`,
`next_input_id = input_id` and `next_idx = idx + 1` respectively. -/
theorem exp2Eval_constraints_spec (r : Exp2EvalRow) :
    ((exp2EvalConstraints r).getD 0 0 = 0 ↔
      r.is_last_idx = 0 ∨ r.is_last_idx = 1) ∧
    (r.is_last_idx = 1 →
      (exp2EvalConstraints r).getD 2 0 = 0 ∧
      (exp2EvalConstraints r).getD 3 0 = 0 ∧
      (exp2EvalConstraints r).getD 4 0 = 0) ∧
    (r.is_last_idx = 0 →
      ((exp2EvalConstraints r).getD 2 0 = 0 ↔ r.next_node_id = r.node_id) ∧
      ((exp2EvalConstraints r).getD 3 0 = 0 ↔ r.next_input_id = r.input_id) ∧
      ((exp2EvalConstraints r).getD 4 0 = 0 ↔ r.next_idx = r.idx + 1)) := by
  refine ⟨?_, ?_, ?_⟩
  · show r.is_last_idx * (r.is_last_idx - 1) = 0 ↔ _
    rw [mul_eq_zero, sub_eq_zero]
  · intro h
    show (1 - r.is_last_idx) * _ = 0 ∧ (1 - r.is_last_idx) * _ = 0 ∧
      (1 - r.is_last_idx) * _ = 0
    rw [h]
    refine ⟨?_, ?_, ?_⟩ <;> ring
  · intro h
    refine ⟨?_, ?_, ?_⟩
    · show (1 - r.is_last_idx) * (r.next_node_id - r.node_id) = 0 ↔ _
      rw [h, sub_zero, one_mul, sub_eq_zero]
    · show (1 - r.is_last_idx) * (r.next_input_id - r.input_id) = 0 ↔ _
      rw [h, sub_zero, one_mul, sub_eq_zero]
    · show (1 - r.is_last_idx) * (r.next_idx - r.idx - 1) = 0 ↔ _
      rw [h, sub_zero, one_mul, sub_sub, sub_eq_zero, add_comm]

/-- C5 witness: at a concrete last row (`is_last_idx = 1`) the three gated
transition constraints evaluate to 0 even though the next-row columns are
unrelated; at a concrete non-last row (`is_last_idx = 0`) the transition
constraints hold exactly because the next-row columns continue the block. -/
theorem exp2Eval_constraints_witness :
    ((exp2EvalConstraints ⟨7, 8, 3, 1, 50, 60, 70, 2, 4, 0, 12, 1, 1⟩).getD 2 0 = 0 ∧
     (exp2EvalConstraints ⟨7, 8, 3, 1, 50, 60, 70, 2, 4, 0, 12, 1, 1⟩).getD 3 0 = 0 ∧
     (exp2EvalConstraints ⟨7, 8, 3, 1, 50, 60, 70, 2, 4, 0, 12, 1, 1⟩).getD 4 0 = 0) ∧
    ((exp2EvalConstraints ⟨7, 8, 3, 0, 7, 8, 4, 2, 4, 0, 12, 1, 1⟩).getD 2 0 = 0 ↔
      (7 : M31) = 7) := by
  constructor
  · exact (exp2Eval_constraints_spec ⟨7, 8, 3, 1, 50, 60, 70, 2, 4, 0, 12, 1, 1⟩).2.1
      (by decide)
  · exact ((exp2Eval_constraints_spec ⟨7, 8, 3, 0, 7, 8, 4, 2, 4, 0, 12, 1, 1⟩).2.2
      (by decide)).1

/-! ## Exp2 lookup witness (crates/air/src/components/lookups/exp2/witness.rs) -/

/-- One row of the `Exp2LookupTraceTable`: a single `multiplicity` field. -/
structure Exp2LookupTraceTableRow where
  multiplicity : M31
deriving DecidableEq

/-- Modelled from the spec: the padding row of a lookup table; spec §3 says
padding rows are "typically all-zero", and the lookup table's only column is
`multiplicity`.  (`Exp2LookupTraceTableRow::padding` lives in the lookup's
`table.rs`, which is not among the provided sources.)  The claims proved
below do not depend on the padding row's contents, only on how many padding
rows `write_trace` appends. -/
def Exp2LookupTraceTableRow.padding : Exp2LookupTraceTableRow := ⟨0⟩

/-- The `Exp2LookupTraceTable`: a dynamically sized vector of rows. -/
structure Exp2LookupTraceTable where
  table : List Exp2LookupTraceTableRow

/-- Trace-generation errors (crates/utils `TraceError`). -/
inductive TraceError where
  | EmptyTrace
deriving DecidableEq

/-- The claim returned for the exp2 lookup trace: its committed log-size. -/
structure Exp2LookupClaim where
  logSize : ℕ
deriving DecidableEq

/-- `Exp2LookupClaimGenerator::write_trace` (witness.rs lines 55-84):
fails with `EmptyTrace` on an empty table; otherwise computes
`size = max(n.next_power_of_two(), N_LANES)`, `log_size = size.ilog2()`,
resizes the table to `size` with padding rows, and returns the claim
together with the padded rows (which the generator captures, packed, for
the interaction phase). -/
def write_trace (self : Exp2LookupTraceTable) :
    Except TraceError (Exp2LookupClaim × List Exp2LookupTraceTableRow) :=
  let n := self.table.length
  if n = 0 then
    Except.error TraceError.EmptyTrace
  else
    let size := max (nextPowerOfTwo n) N_LANES
    let logSize := ilog2 size
    let padded := self.table ++ List.replicate (size - n) Exp2LookupTraceTableRow.padding
    Except.ok (⟨logSize⟩, padded)

/-- C3 helper: the exp2 "consistency" expression collapses to `rem_val`. -/
theorem exp2ConsistencyConstraint_eq_rem (i o r : M31) :
    exp2ConsistencyConstraint i o r = r := by
  unfold exp2ConsistencyConstraint
  ring

/-- C3 counterexample: the constraint `out_val * input_val - out_val * input_val
+ rem_val` is NOT satisfied by every assignment: at
`input_val = 0, out_val = 0, rem_val = 1` the expression evaluates to `1 ≠ 0`,
so the constraint (which requires the expression to vanish) fails there. -/
theorem exp2Consistency_not_always_satisfied :
    ¬ (∀ i o r : M31, exp2ConsistencyConstraint i o r = 0) := by
  intro h
  have h1 := h 0 0 1
  rw [exp2ConsistencyConstraint_eq_rem] at h1
  exact absurd h1 (by decide)

/-- C3 (amended): the exp2 consistency constraint simplifies to `rem_val`:
it imposes no constraint at all on `input_val` and `out_val` (for any fixed
`rem_val` its value is independent of them), and it is satisfied exactly when
`rem_val = 0`; no polynomial constraint relates `out_val` to `input_val`, the
correctness of exp2 being delegated to the LUT lookup. -/
theorem exp2Consistency_is_rem_only :
    (∀ i o r : M31, exp2ConsistencyConstraint i o r = r) ∧
    (∀ i o i2 o2 r : M31,
      exp2ConsistencyConstraint i o r = exp2ConsistencyConstraint i2 o2 r) ∧
    (∀ i o r : M31, exp2ConsistencyConstraint i o r = 0 ↔ r = 0) := by
  refine ⟨exp2ConsistencyConstraint_eq_rem, ?_, ?_⟩
  · intro i o i2 o2 r
    rw [exp2ConsistencyConstraint_eq_rem, exp2ConsistencyConstraint_eq_rem]
  · intro i o r
    rw [exp2ConsistencyConstraint_eq_rem]

/-- C1: `Exp2LookupClaimGenerator::write_trace` fails with `EmptyTrace`
exactly when the table has zero rows; otherwise, with `n` the row count and
`size = max(next_power_of_two(n), N_LANES)`, it pads the table to `size` rows
with padding rows and returns a claim whose `log_size` is `log2(size)`
(exact, since `size` is a power of two). -/
theorem write_trace_empty_iff_and_pads (t : Exp2LookupTraceTable) :
    (write_trace t = Except.error TraceError.EmptyTrace ↔ t.table.length = 0) ∧
    (∀ c g, write_trace t = Except.ok (c, g) →
      c.logSize = Nat.log2 (max (nextPowerOfTwo t.table.length) N_LANES) ∧
      2 ^ c.logSize = max (nextPowerOfTwo t.table.length) N_LANES ∧
      g.length = max (nextPowerOfTwo t.table.length) N_LANES ∧
      g = t.table ++ List.replicate
        (max (nextPowerOfTwo t.table.length) N_LANES - t.table.length)
        Exp2LookupTraceTableRow.padding) := by
  have hpow : 2 ^ Nat.log2 (max (nextPowerOfTwo t.table.length) N_LANES) =
      max (nextPowerOfTwo t.table.length) N_LANES := by
    obtain ⟨k, hk⟩ := nextPowerOfTwo_pow t.table.length
    have hmax : max (nextPowerOfTwo t.table.length) N_LANES = 2 ^ (max k 4) := by
      rw [hk, N_LANES]
      rcases le_total k 4 with h4 | h4
      · rw [max_eq_right h4, max_eq_right (by
          calc (2 : ℕ) ^ k ≤ 2 ^ 4 := Nat.pow_le_pow_right (by norm_num) h4
          _ = 16 := by norm_num)]
        norm_num
      · rw [max_eq_left h4, max_eq_left (by
          calc (16 : ℕ) = 2 ^ 4 := by norm_num
          _ ≤ 2 ^ k := Nat.pow_le_pow_right (by norm_num) h4)]
    rw [hmax, Nat.log2_eq_log_two, Nat.log_pow (by norm_num)]
  constructor
  · constructor
    · intro h
      by_contra hne
      simp only [write_trace, if_neg hne] at h
      exact Except.noConfusion h
    · intro h
      simp [write_trace, h]
  · intro c g h
    simp only [write_trace] at h
    by_cases hn : t.table.length = 0
    · rw [if_pos hn] at h
      exact Except.noConfusion h
    · rw [if_neg hn] at h
      injection h with h2
      rw [Prod.mk.injEq] at h2
      obtain ⟨hc, hg⟩ := h2
      have hcl : c.logSize = ilog2 (max (nextPowerOfTwo t.table.length) N_LANES) := by
        rw [← hc]
      rw [ilog2_eq_log2] at hcl
      refine ⟨hcl, by rw [hcl, hpow], ?_, by rw [← hg]⟩
      rw [← hg]
      have hge : t.table.length ≤ max (nextPowerOfTwo t.table.length) N_LANES :=
        le_trans (nextPowerOfTwo_ge _) (le_max_left _ _)
      simp only [List.length_append, List.length_replicate]
      omega

/-- C1 witness: a concrete 5-row table is not rejected, gets
`size = max(8, 16) = 16`, `log_size = 4`, and 11 padding rows appended. -/
theorem write_trace_witness :
    (4 : ℕ) = Nat.log2 (max (nextPowerOfTwo 5) N_LANES) ∧
    2 ^ 4 = max (nextPowerOfTwo 5) N_LANES ∧
    (List.replicate 5 (Exp2LookupTraceTableRow.mk 1) ++
      List.replicate 11 Exp2LookupTraceTableRow.padding).length =
        max (nextPowerOfTwo 5) N_LANES := by
  have h := (write_trace_empty_iff_and_pads ⟨List.replicate 5 ⟨1⟩⟩).2
    ⟨4⟩ (List.replicate 5 ⟨1⟩ ++ List.replicate 11 Exp2LookupTraceTableRow.padding)
    (by rfl)
  exact ⟨by simpa using h.1, by simpa using h.2.1, by simpa using h.2.2.1⟩

/-! ## Add trace generation (crates/air/src/components/add/trace.rs) -/

/-- A `PackedBaseField`: a SIMD vector of `N_LANES` M31 lane values,
embedded as the list of its lanes. -/
abbrev PackedBaseField : Type := List M31

/-- Lane-wise packed addition of two `PackedBaseField`s. -/
def packedAdd (a b : PackedBaseField) : PackedBaseField :=
  List.zipWith (fun x y => x + y) a b

/-- `p.to_array()[0]`: the first lane of a packed value. -/
def lane0 (a : PackedBaseField) : M31 := a.headD 0

/-- The result of `gen_add_trace`: three trace columns (`Lhs`, `Rhs`, `Res`),
the claim's log-size, and the output data `c_data`. -/
structure AddTraceResult where
  lhsCol : List M31
  rhsCol : List M31
  resCol : List M31
  claimLogSize : ℕ
  c_data : List PackedBaseField

/-- `gen_add_trace` (trace.rs lines 13-68).  The source loop runs
`i = 0 .. trace_size` writing exactly index `i` of each freshly zeroed
column per iteration, so each column is embedded as a map over
`List.range trace_size` of the loop body: for `i < size`
(`size = max(lhs.len(), rhs.len())`) it records lane 0 of
`lhs[i % lhs.len()]`, `rhs[i % rhs.len()]` and of their packed sum, and it
pads the remaining rows with zeros; `c_data` collects the packed sums
pushed for `i < size`, in loop order. -/
def gen_add_trace (log_size : ℕ) (lhs rhs : List PackedBaseField) :
    AddTraceResult :=
  let traceSize := 2 ^ log_size
  let size := max lhs.length rhs.length
  { lhsCol := (List.range traceSize).map (fun i =>
      if i < size then lane0 (lhs.getD (i % lhs.length) []) else 0)
  , rhsCol := (List.range traceSize).map (fun i =>
      if i < size then lane0 (rhs.getD (i % rhs.length) []) else 0)
  , resCol := (List.range traceSize).map (fun i =>
      if i < size then
        lane0 (packedAdd (lhs.getD (i % lhs.length) []) (rhs.getD (i % rhs.length) []))
      else 0)
  , claimLogSize := log_size
  , c_data := (List.range traceSize).filterMap (fun i =>
      if i < size then
        some (packedAdd (lhs.getD (i % lhs.length) []) (rhs.getD (i % rhs.length) []))
      else none) }

/-- `getD` of a map over `List.range`. -/
theorem getD_map_range (f : ℕ → α) (n i : ℕ) (d : α) :
    ((List.range n).map f).getD i d = if i < n then f i else d := by
  by_cases h : i < n
  · rw [if_pos h, List.getD_eq_getElem?_getD, List.getElem?_map,
      List.getElem?_range h]
    rfl
  · rw [if_neg h, List.getD_eq_getElem?_getD,
      List.getElem?_eq_none (by simpa using Nat.le_of_not_lt h)]
    rfl

/-- Lane 0 of a packed sum is the M31 sum of the lane-0 values. -/
theorem lane0_packedAdd (a b : PackedBaseField) (ha : a ≠ []) (hb : b ≠ []) :
    lane0 (packedAdd a b) = lane0 a + lane0 b := by
  match a, b with
  | [], _ => exact absurd rfl ha
  | _ :: _, [] => exact absurd rfl hb
  | x :: a, y :: b => rfl

/-- A guarded `filterMap` over `List.range n` keeps exactly the first `m`
entries when `m ≤ n`. -/
theorem filterMap_range_guard (f : ℕ → α) (n m : ℕ) (h : m ≤ n) :
    (List.range n).filterMap (fun i => if i < m then some (f i) else none) =
      (List.range m).map f := by
  obtain ⟨k, rfl⟩ := Nat.exists_eq_add_of_le h
  rw [List.range_add, List.filterMap_append]
  have h1 : (List.range m).filterMap
      (fun i => if i < m then some (f i) else none) = (List.range m).map f := by
    rw [List.filterMap_eq_map_iff_forall_eq_some.mpr]
    intro i hi
    rw [if_pos (List.mem_range.mp hi)]
  have h2 : ((List.range k).map (m + ·)).filterMap
      (fun i => if i < m then some (f i) else none) = [] := by
    rw [List.filterMap_eq_nil_iff.mpr]
    intro i hi
    obtain ⟨j, _, rfl⟩ := List.mem_map.mp hi
    rw [if_neg (by omega)]
  rw [h1, h2, List.append_nil]

/-- C4: every row of the trace produced by `gen_add_trace` satisfies the add
constraint `lhs_val + rhs_val - out_val = 0` in M31: the `Res` column equals
the M31 sum of the `Lhs` and `Rhs` columns at every index below
`2^log_size`, and every padding row at or beyond the data size
`max(lhs.len(), rhs.len())` is all zeros (which also satisfies the
constraint). -/
theorem gen_add_trace_satisfies_add_constraint
    (log_size : ℕ) (lhs rhs : List PackedBaseField)
    (hlhs : lhs ≠ []) (hrhs : rhs ≠ [])
    (hlanes1 : ∀ x ∈ lhs, x.length = N_LANES)
    (hlanes2 : ∀ x ∈ rhs, x.length = N_LANES) :
    ∀ i, i < 2 ^ log_size →
      ((gen_add_trace log_size lhs rhs).resCol.getD i 0 =
        (gen_add_trace log_size lhs rhs).lhsCol.getD i 0 +
        (gen_add_trace log_size lhs rhs).rhsCol.getD i 0) ∧
      (max lhs.length rhs.length ≤ i →
        (gen_add_trace log_size lhs rhs).lhsCol.getD i 0 = 0 ∧
        (gen_add_trace log_size lhs rhs).rhsCol.getD i 0 = 0 ∧
        (gen_add_trace log_size lhs rhs).resCol.getD i 0 = 0) := by
  intro i hi
  have hlen1 : 0 < lhs.length := List.length_pos.mpr hlhs
  have hlen2 : 0 < rhs.length := List.length_pos.mpr hrhs
  have hmem1 : lhs.getD (i % lhs.length) [] ∈ lhs := by
    rw [List.getD_eq_getElem?_getD,
      List.getElem?_eq_getElem (Nat.mod_lt _ hlen1)]
    exact List.getElem_mem _
  have hmem2 : rhs.getD (i % rhs.length) [] ∈ rhs := by
    rw [List.getD_eq_getElem?_getD,
      List.getElem?_eq_getElem (Nat.mod_lt _ hlen2)]
    exact List.getElem_mem _
  have hne1 : lhs.getD (i % lhs.length) [] ≠ [] := by
    intro hcontra
    have := hlanes1 _ hmem1
    rw [hcontra] at this
    simp [N_LANES] at this
  have hne2 : rhs.getD (i % rhs.length) [] ≠ [] := by
    intro hcontra
    have := hlanes2 _ hmem2
    rw [hcontra] at this
    simp [N_LANES] at this
  constructor
  · simp only [gen_add_trace, getD_map_range, if_pos hi]
    by_cases hsz : i < max lhs.length rhs.length
    · rw [if_pos hsz, if_pos hsz, if_pos hsz, lane0_packedAdd _ _ hne1 hne2]
    · rw [if_neg hsz, if_neg hsz, if_neg hsz, add_zero]
  · intro hpad
    have hsz : ¬ i < max lhs.length rhs.length := Nat.not_lt.mpr hpad
    simp only [gen_add_trace, getD_map_range, if_pos hi]
    rw [if_neg hsz, if_neg hsz, if_neg hsz]
    exact ⟨rfl, rfl, rfl⟩

/-- C4 witness: at `log_size = 2`, one packed lhs element with lane 0 = 1
and one packed rhs element with lane 0 = 2, row 0 satisfies `Res = Lhs + Rhs`
and row 3 is a zero padding row. -/
theorem gen_add_trace_constraint_witness :
    ((gen_add_trace 2 [List.replicate 16 1] [List.replicate 16 2]).resCol.getD 0 0 =
      (gen_add_trace 2 [List.replicate 16 1] [List.replicate 16 2]).lhsCol.getD 0 0 +
      (gen_add_trace 2 [List.replicate 16 1] [List.replicate 16 2]).rhsCol.getD 0 0) ∧
    ((gen_add_trace 2 [List.replicate 16 1] [List.replicate 16 2]).lhsCol.getD 3 0 = 0 ∧
     (gen_add_trace 2 [List.replicate 16 1] [List.replicate 16 2]).rhsCol.getD 3 0 = 0 ∧
     (gen_add_trace 2 [List.replicate 16 1] [List.replicate 16 2]).resCol.getD 3 0 = 0) := by
  have h0 := gen_add_trace_satisfies_add_constraint 2
    [List.replicate 16 1] [List.replicate 16 2]
    (by decide) (by decide) (by decide) (by decide) 0 (by decide)
  have h3 := gen_add_trace_satisfies_add_constraint 2
    [List.replicate 16 1] [List.replicate 16 2]
    (by decide) (by decide) (by decide) (by decide) 3 (by decide)
  exact ⟨h0.1, h3.2 (by decide)⟩

/-- C10 counterexample: at `log_size = 0` with a 2-element lhs and a
1-element rhs, `gen_add_trace` returns only `min(2^log_size, 2) = 1` output
element, not `max(lhs.len(), rhs.len()) = 2` as claimed. -/
theorem gen_add_trace_c_data_length_counterexample :
    (gen_add_trace 0 [List.replicate 16 1, List.replicate 16 2]
        [List.replicate 16 3]).c_data.length ≠
      max ([List.replicate 16 1, List.replicate 16 2] : List PackedBaseField).length
        ([List.replicate 16 3] : List PackedBaseField).length := by
  decide

/-- C10 (amended): provided the data size `max(lhs.len(), rhs.len())` does
not exceed `2^log_size`, `gen_add_trace` broadcasts operands of different
lengths by modular indexing: the output vector has exactly
`max(lhs.len(), rhs.len())` elements and its `i`-th element is the packed
sum `lhs[i % lhs.len()] + rhs[i % rhs.len()]`. -/
theorem gen_add_trace_c_data_broadcast
    (log_size : ℕ) (lhs rhs : List PackedBaseField)
    (hfit : max lhs.length rhs.length ≤ 2 ^ log_size) :
    (gen_add_trace log_size lhs rhs).c_data.length =
      max lhs.length rhs.length ∧
    ∀ i, i < max lhs.length rhs.length →
      (gen_add_trace log_size lhs rhs).c_data.getD i [] =
        packedAdd (lhs.getD (i % lhs.length) []) (rhs.getD (i % rhs.length) []) := by
  have hc : (gen_add_trace log_size lhs rhs).c_data =
      (List.range (max lhs.length rhs.length)).map (fun i =>
        packedAdd (lhs.getD (i % lhs.length) []) (rhs.getD (i % rhs.length) [])) := by
    simp only [gen_add_trace]
    exact filterMap_range_guard _ _ _ hfit
  constructor
  · rw [hc, List.length_map, List.length_range]
  · intro i hi
    rw [hc, getD_map_range, if_pos hi]

/-- C10 witness: at `log_size = 1` with a 2-element lhs and a 1-element rhs,
the output has 2 elements and element 1 is `lhs[1] + rhs[1 % 1] = lhs[1] + rhs[0]`. -/
theorem gen_add_trace_c_data_broadcast_witness :
    (gen_add_trace 1 [List.replicate 16 1, List.replicate 16 2]
        [List.replicate 16 3]).c_data.length = 2 ∧
    (gen_add_trace 1 [List.replicate 16 1, List.replicate 16 2]
        [List.replicate 16 3]).c_data.getD 1 [] =
      packedAdd (List.replicate 16 2) (List.replicate 16 3) := by
  have h := gen_add_trace_c_data_broadcast 1
    [List.replicate 16 1, List.replicate 16 2] [List.replicate 16 3] (by decide)
  exact ⟨h.1, by simpa using h.2 1 (by decide)⟩

/-! ## QM31 and the exp2 lookup interaction trace -/

/-- Modelled from the spec: `CM31`, the degree-2 extension M31[i] with
i^2 = -1, embedded as pairs (real, imaginary).  (The field types live in the
underlying STARK engine, consumed as a black box per spec §1; spec §3 fixes
only that QM31 is the degree-4 extension of M31, so we use the engine's
standard tower construction.) -/
abbrev CM31 : Type := M31 × M31

/-- CM31 addition, component-wise. -/
def cm31Add (x y : CM31) : CM31 := (x.1 + y.1, x.2 + y.2)

/-- CM31 multiplication: (a+bi)(c+di) = (ac-bd) + (ad+bc)i. -/
def cm31Mul (x y : CM31) : CM31 :=
  (x.1 * y.1 - x.2 * y.2, x.1 * y.2 + x.2 * y.1)

/-- CM31 negation. -/
def cm31Neg (x : CM31) : CM31 := (-x.1, -x.2)

/-- Modelled from the spec: `QM31`, the degree-4 extension of M31, built as
CM31[u] with u^2 = 2 + i, embedded as pairs of CM31 coefficients. -/
abbrev QM31 : Type := CM31 × CM31

/-- The constant u^2 = 2 + i of the QM31 tower. -/
def qm31R : CM31 := (2, 1)

/-- QM31 addition. -/
def qm31Add (x y : QM31) : QM31 := (cm31Add x.1 y.1, cm31Add x.2 y.2)

/-- QM31 multiplication: (a + bu)(c + du) = (ac + R bd) + (ad + bc)u. -/
def qm31Mul (x y : QM31) : QM31 :=
  (cm31Add (cm31Mul x.1 y.1) (cm31Mul qm31R (cm31Mul x.2 y.2)),
   cm31Add (cm31Mul x.1 y.2) (cm31Mul x.2 y.1))

/-- QM31 negation. -/
def qm31Neg (x : QM31) : QM31 := (cm31Neg x.1, cm31Neg x.2)

/-- The QM31 one. -/
def qm31One : QM31 := ((1, 0), (0, 0))

/-- The embedding of M31 into QM31 (`PackedM31 -> PackedQM31` `.into()`,
lane-wise). -/
def m31ToQM31 (a : M31) : QM31 := ((a, 0), (0, 0))

/-- A `PackedM31`: the list of its `N_LANES` M31 lanes. -/
abbrev PackedM31 : Type := List M31

/-- A `PackedQM31`: the list of its `N_LANES` QM31 lanes. -/
abbrev PackedQM31 : Type := List QM31

/-- `PackedQM31::one()`: all lanes one. -/
def packedQM31One : PackedQM31 := List.replicate N_LANES qm31One

/-- Lane-wise packed QM31 negation. -/
def packedQM31Neg (x : PackedQM31) : PackedQM31 := x.map qm31Neg

/-- Lane-wise packed QM31 multiplication. -/
def packedQM31Mul (x y : PackedQM31) : PackedQM31 := List.zipWith qm31Mul x y

/-- Lane-wise conversion of a `PackedM31` into a `PackedQM31` (`.into()`). -/
def packedM31IntoQM31 (x : PackedM31) : PackedQM31 := x.map m31ToQM31

/-- Multiplying by the negated one negates, in QM31. -/
theorem qm31_neg_one_mul (x : QM31) : qm31Mul (qm31Neg qm31One) x = qm31Neg x := by
  obtain ⟨⟨a, b⟩, ⟨c, d⟩⟩ := x
  simp only [qm31Mul, qm31Neg, qm31One, cm31Neg, cm31Mul, cm31Add, qm31R,
    Prod.mk.injEq]
  refine ⟨⟨?_, ?_⟩, ?_, ?_⟩ <;> ring

/-- `zipWith` against a same-length constant list is a `map`. -/
theorem zipWith_replicate_length (f : α → β → γ) (c : α) :
    ∀ l : List β, List.zipWith f (List.replicate l.length c) l = l.map (f c)
  | [] => rfl
  | b :: t => by
    rw [List.length_cons, List.replicate_succ, List.zipWith_cons_cons,
      List.map_cons, zipWith_replicate_length f c t]

/-- `-PackedQM31::one() * m`: lane-wise negation of `m`, for a full-width `m`. -/
theorem packed_neg_one_mul (m : PackedQM31) (hm : m.length = N_LANES) :
    packedQM31Mul (packedQM31Neg packedQM31One) m = packedQM31Neg m := by
  have hrep : packedQM31Neg packedQM31One =
      List.replicate N_LANES (qm31Neg qm31One) := by
    simp [packedQM31Neg, packedQM31One, List.map_replicate]
  rw [packedQM31Mul, hrep, ← hm, zipWith_replicate_length]
  simp only [packedQM31Neg]
  exact List.map_congr_left fun x _ => qm31_neg_one_mul x

/-- The LogUp fractions written by
`Exp2LookupInteractionClaimGenerator::write_interaction_trace`
(witness.rs lines 153-180), as (numerator, denominator) pairs per packed
row.  `lut` is the vector of preprocessed exp2 column references; the `get`
+ `expect` calls on its entries 0 and 1 become the `Option` match (missing
columns panic in the source, embedded as `none`).  `combine` is the
`Exp2LookupElements::combine` of the underlying engine, kept abstract. -/
def exp2LookupInteractionFracs (logSize : ℕ) (mults : List PackedM31)
    (combine : PackedM31 → PackedM31 → PackedQM31)
    (lut : List (List PackedM31)) : Option (List (PackedQM31 × PackedQM31)) :=
  match lut[0]?, lut[1]? with
  | some lutCol0, some lutCol1 =>
    some ((List.range (2 ^ (logSize - LOG_N_LANES))).map (fun row =>
      (packedQM31Mul (packedQM31Neg packedQM31One)
        (packedM31IntoQM31 (mults.getD row [])),
       combine (lutCol0.getD row []) (lutCol1.getD row []))))
  | _, _ => none

/-- C6: whenever `write_interaction_trace` succeeds (the two preprocessed
exp2 LUT columns are present) and the multiplicity column has full-width
packed rows, it writes one LogUp fraction per row whose numerator is the
negation of that row's multiplicity and whose denominator is
`combine(elements, [lut_input(row), lut_output(row)])` with the LUT input
and output taken from the two preprocessed exp2 columns. -/
theorem exp2Lookup_interaction_fracs_spec
    (logSize : ℕ) (mults : List PackedM31)
    (combine : PackedM31 → PackedM31 → PackedQM31)
    (lut : List (List PackedM31)) (lutCol0 lutCol1 : List PackedM31)
    (out : List (PackedQM31 × PackedQM31))
    (h0 : lut[0]? = some lutCol0) (h1 : lut[1]? = some lutCol1)
    (hout : exp2LookupInteractionFracs logSize mults combine lut = some out)
    (hlanes : ∀ m ∈ mults, m.length = N_LANES) :
    out.length = 2 ^ (logSize - LOG_N_LANES) ∧
    ∀ row, row < 2 ^ (logSize - LOG_N_LANES) → row < mults.length →
      out.getD row ([], []) =
        (packedQM31Neg (packedM31IntoQM31 (mults.getD row [])),
         combine (lutCol0.getD row []) (lutCol1.getD row [])) := by
  rw [exp2LookupInteractionFracs, h0, h1, Option.some.injEq] at hout
  constructor
  · rw [← hout, List.length_map, List.length_range]
  · intro row hrow hmem
    have hm : (mults.getD row []).length = N_LANES := by
      apply hlanes
      rw [List.getD_eq_getElem?_getD, List.getElem?_eq_getElem hmem]
      exact List.getElem_mem _
    have hmq : (packedM31IntoQM31 (mults.getD row [])).length = N_LANES := by
      rw [packedM31IntoQM31, List.length_map, hm]
    rw [← hout, getD_map_range, if_pos hrow, packed_neg_one_mul _ hmq]

/-- C6 witness: one packed row (`logSize = 4`), multiplicity lanes all 2,
LUT input lanes all 3 and output lanes all 5, with a concrete combine
function: the written fraction is (-2 per lane, combine(3, 5) per lane). -/
theorem exp2Lookup_interaction_fracs_witness :
    ∃ out, exp2LookupInteractionFracs 4 [List.replicate 16 2]
        (fun a b => packedM31IntoQM31 (packedAdd a b))
        [[List.replicate 16 3], [List.replicate 16 5]] = some out ∧
      out.getD 0 ([], []) =
        (packedQM31Neg (packedM31IntoQM31 (List.replicate 16 2)),
         packedM31IntoQM31 (packedAdd (List.replicate 16 3) (List.replicate 16 5))) := by
  refine ⟨_, rfl, ?_⟩
  have h := exp2Lookup_interaction_fracs_spec 4 [List.replicate 16 2]
    (fun a b => packedM31IntoQM31 (packedAdd a b))
    [[List.replicate 16 3], [List.replicate 16 5]]
    [List.replicate 16 3] [List.replicate 16 5] _
    (by rfl) (by rfl) rfl (by decide)
  simpa using h.2 0 (by decide) (by decide)

/-! ## Component order (crates/air/src/lib.rs, crates/prover/src/prover.rs) -/

/-- The operator / component tags of the system. -/
inductive OpComponent where
  | add
  | mul
  | recip
  | sin
  | sinLookup
  | sumReduce
  | maxReduce
  | sqrt
  | exp2
  | exp2Lookup
deriving DecidableEq

/-- `LuminairClaim` (lib.rs lines 26-47): one `Option` claim per component,
in field declaration order; each payload is the claim's `log_size`. -/
structure LuminairClaimS where
  add : Option ℕ
  mul : Option ℕ
  recip : Option ℕ
  sin : Option ℕ
  sinLookup : Option ℕ
  sumReduce : Option ℕ
  maxReduce : Option ℕ
  sqrt : Option ℕ
  exp2 : Option ℕ
  exp2Lookup : Option ℕ

/-- `LuminairInteractionClaim` (lib.rs lines 162-183): one `Option`
interaction claim per component; each payload is the `claimed_sum`. -/
structure LuminairInteractionClaimS where
  add : Option QM31
  mul : Option QM31
  recip : Option QM31
  sin : Option QM31
  sinLookup : Option QM31
  sumReduce : Option QM31
  maxReduce : Option QM31
  sqrt : Option QM31
  exp2 : Option QM31
  exp2Lookup : Option QM31

/-- `LuminairInteractionClaimGenerator` (lib.rs lines 132-153): one `Option`
generator per component (payloads abstracted to their captured log-size). -/
structure InteractionClaimGenS where
  add : Option ℕ
  mul : Option ℕ
  recip : Option ℕ
  sin : Option ℕ
  sinLookup : Option ℕ
  sumReduce : Option ℕ
  maxReduce : Option ℕ
  sqrt : Option ℕ
  exp2 : Option ℕ
  exp2Lookup : Option ℕ

/-- One `if let Some(_) = field { ... }` arm: emits the component tag when
the field is present. -/
def optTag (o : Option α) (t : OpComponent) : List OpComponent :=
  match o with
  | some _ => [t]
  | none => []

/-- The component order in which `LuminairClaim::mix_into` (lib.rs 53-84)
mixes the present claims into the channel. -/
def claimMixOrder (c : LuminairClaimS) : List OpComponent :=
  optTag c.add .add ++ optTag c.mul .mul ++ optTag c.recip .recip ++
  optTag c.sin .sin ++ optTag c.sinLookup .sinLookup ++
  optTag c.sumReduce .sumReduce ++ optTag c.maxReduce .maxReduce ++
  optTag c.sqrt .sqrt ++ optTag c.exp2 .exp2 ++ optTag c.exp2Lookup .exp2Lookup

/-- The component order in which `LuminairClaim::log_sizes` (lib.rs 89-123)
pushes the present components' log-sizes. -/
def claimLogSizesOrder (c : LuminairClaimS) : List OpComponent :=
  optTag c.add .add ++ optTag c.mul .mul ++ optTag c.recip .recip ++
  optTag c.sin .sin ++ optTag c.sinLookup .sinLookup ++
  optTag c.sumReduce .sumReduce ++ optTag c.maxReduce .maxReduce ++
  optTag c.sqrt .sqrt ++ optTag c.exp2 .exp2 ++ optTag c.exp2Lookup .exp2Lookup

/-- The component order in which `LuminairInteractionClaim::mix_into`
(lib.rs 188-219) mixes the present interaction claims into the channel. -/
def interactionMixOrder (c : LuminairInteractionClaimS) : List OpComponent :=
  optTag c.add .add ++ optTag c.mul .mul ++ optTag c.recip .recip ++
  optTag c.sin .sin ++ optTag c.sinLookup .sinLookup ++
  optTag c.sumReduce .sumReduce ++ optTag c.maxReduce .maxReduce ++
  optTag c.sqrt .sqrt ++ optTag c.exp2 .exp2 ++ optTag c.exp2Lookup .exp2Lookup

/-- The component order in which `prove`'s interaction phase
(prover.rs 154-207) invokes the present generators' `write_interaction_trace`. -/
def proveInteractionOrder (g : InteractionClaimGenS) : List OpComponent :=
  optTag g.add .add ++ optTag g.mul .mul ++ optTag g.recip .recip ++
  optTag g.sin .sin ++ optTag g.sinLookup .sinLookup ++
  optTag g.sumReduce .sumReduce ++ optTag g.maxReduce .maxReduce ++
  optTag g.sqrt .sqrt ++ optTag g.exp2 .exp2 ++ optTag g.exp2Lookup .exp2Lookup

/-- The `Option` field declaration order common to `LuminairClaim`,
`LuminairInteractionClaim` and `LuminairInteractionClaimGenerator`. -/
def fieldDeclOrder : List OpComponent :=
  [.add, .mul, .recip, .sin, .sinLookup, .sumReduce, .maxReduce, .sqrt,
   .exp2, .exp2Lookup]

/-- The canonical component order claimed by spec §4.2.x: arithmetic
operators first (add, mul, recip, sqrt, sin, exp2, sum_reduce, max_reduce),
then the lookup components. -/
def specCanonicalOrder : List OpComponent :=
  [.add, .mul, .recip, .sqrt, .sin, .exp2, .sumReduce, .maxReduce,
   .sinLookup, .exp2Lookup]

/-- Which components are present in a `LuminairClaimS`. -/
def claimHas (c : LuminairClaimS) : OpComponent → Bool
  | .add => c.add.isSome
  | .mul => c.mul.isSome
  | .recip => c.recip.isSome
  | .sin => c.sin.isSome
  | .sinLookup => c.sinLookup.isSome
  | .sumReduce => c.sumReduce.isSome
  | .maxReduce => c.maxReduce.isSome
  | .sqrt => c.sqrt.isSome
  | .exp2 => c.exp2.isSome
  | .exp2Lookup => c.exp2Lookup.isSome

/-- Which components are present in a `LuminairInteractionClaimS`. -/
def interactionHas (c : LuminairInteractionClaimS) : OpComponent → Bool
  | .add => c.add.isSome
  | .mul => c.mul.isSome
  | .recip => c.recip.isSome
  | .sin => c.sin.isSome
  | .sinLookup => c.sinLookup.isSome
  | .sumReduce => c.sumReduce.isSome
  | .maxReduce => c.maxReduce.isSome
  | .sqrt => c.sqrt.isSome
  | .exp2 => c.exp2.isSome
  | .exp2Lookup => c.exp2Lookup.isSome

/-- Which components are present in an `InteractionClaimGenS`. -/
def genHas (g : InteractionClaimGenS) : OpComponent → Bool
  | .add => g.add.isSome
  | .mul => g.mul.isSome
  | .recip => g.recip.isSome
  | .sin => g.sin.isSome
  | .sinLookup => g.sinLookup.isSome
  | .sumReduce => g.sumReduce.isSome
  | .maxReduce => g.maxReduce.isSome
  | .sqrt => g.sqrt.isSome
  | .exp2 => g.exp2.isSome
  | .exp2Lookup => g.exp2Lookup.isSome

/-- `optTag` as a Boolean-guarded singleton. -/
theorem optTag_eq_if (o : Option α) (t : OpComponent) :
    optTag o t = if o.isSome then [t] else [] := by
  cases o <;> rfl

/-- `filter` over a cons as a guarded singleton prepended. -/
theorem filter_cons_append (p : α → Bool) (a : α) (l : List α) :
    List.filter p (a :: l) = (if p a = true then [a] else []) ++ l.filter p := by
  rw [List.filter_cons]
  cases h : p a <;> simp

/-- C7 counterexample: for the claim with all ten components present,
`LuminairClaim::mix_into` processes the components in field declaration
order (add, mul, recip, sin, sin_lookup, sum_reduce, max_reduce, sqrt,
exp2, exp2_lookup), which is NOT the canonical §4.2.x order (add, mul,
recip, sqrt, sin, exp2, sum_reduce, max_reduce, sin_lookup, exp2_lookup)
stated by the claim. -/
theorem claimMixOrder_ne_specCanonicalOrder :
    claimMixOrder ⟨some 1, some 1, some 1, some 1, some 1, some 1, some 1,
      some 1, some 1, some 1⟩ ≠ specCanonicalOrder := by
  decide

/-- C7 (amended): within each phase, operators are processed in one stable
order identical across all phases — but that order is the `Option` field
declaration order add, mul, recip, sin, sin_lookup, sum_reduce, max_reduce,
sqrt, exp2, exp2_lookup, not the §4.2.x listing: `LuminairClaim::mix_into`,
`LuminairClaim::log_sizes`, `LuminairInteractionClaim::mix_into` and the
interaction-trace generation in `prove` all iterate the present component
fields as the same filtered sub-list of that declaration order. -/
theorem component_order_stable_across_phases :
    (∀ c : LuminairClaimS,
      claimMixOrder c = fieldDeclOrder.filter (claimHas c)) ∧
    (∀ c : LuminairClaimS,
      claimLogSizesOrder c = fieldDeclOrder.filter (claimHas c)) ∧
    (∀ c : LuminairInteractionClaimS,
      interactionMixOrder c = fieldDeclOrder.filter (interactionHas c)) ∧
    (∀ g : InteractionClaimGenS,
      proveInteractionOrder g = fieldDeclOrder.filter (genHas g)) := by
  refine ⟨?_, ?_, ?_, ?_⟩ <;>
    intro c <;>
    simp only [claimMixOrder, claimLogSizesOrder, interactionMixOrder,
      proveInteractionOrder, fieldDeclOrder, optTag_eq_if, filter_cons_append,
      claimHas, interactionHas, genHas, List.filter_nil,
      List.append_nil, List.append_assoc]

/-! ## PIE trace-table enum (crates/air/src/pie.rs, crates/prover/src/prover.rs) -/

/-- The `TableTrace` enum defined in pie.rs (lines 15-30).  Its variants, in
declaration order, are Add, Mul, SumReduce, Recip, MaxReduce, Sin,
SinLookup — and nothing else.  (The per-variant table payloads live in
component `table.rs` files outside the provided sources and are irrelevant
to which variants exist, so they are elided.) -/
inductive TableTrace where
  | Add
  | Mul
  | SumReduce
  | Recip
  | MaxReduce
  | Sin
  | SinLookup
deriving DecidableEq

/-- The operator tag of a `TableTrace` variant. -/
def tableTraceOp : TableTrace → OpComponent
  | .Add => .add
  | .Mul => .mul
  | .SumReduce => .sumReduce
  | .Recip => .recip
  | .MaxReduce => .maxReduce
  | .Sin => .sin
  | .SinLookup => .sinLookup

/-- The variants handled by the `match table` in `prove`
(prover.rs lines 75-137), in arm order.  Note these are arms over a type
named `TraceTable` with ten variants, which the pie.rs in the same
repository does not define. -/
def proveMatchArms : List OpComponent :=
  [.add, .mul, .recip, .sin, .sinLookup, .sumReduce, .maxReduce, .sqrt,
   .exp2, .exp2Lookup]

/-- The full operator set of the claim (spec §6 / §2 C4). -/
def fullOperatorSet : List OpComponent :=
  [.add, .mul, .recip, .sqrt, .sin, .exp2, .sumReduce, .maxReduce,
   .sinLookup, .exp2Lookup]

/-- C8 (code bug): the trace-table enum that pie.rs actually defines has NO
variant for sqrt, exp2 or exp2_lookup (it covers only 7 of the 10
operators), even though the prover's match handles all ten operator
variants — of a differently named type the pie module does not define.  The
spec's "tagged union over the operator set" is the evident intent; the
provided pie.rs contradicts the provided prover.rs. -/
theorem tableTrace_missing_variants :
    (∀ t : TableTrace, tableTraceOp t ≠ .sqrt ∧ tableTraceOp t ≠ .exp2 ∧
      tableTraceOp t ≠ .exp2Lookup) ∧
    (∀ op ∈ fullOperatorSet, op ∈ proveMatchArms) ∧
    ¬ (∀ op ∈ fullOperatorSet, ∃ t : TableTrace, tableTraceOp t = op) := by
  refine ⟨?_, by decide, ?_⟩
  · intro t
    cases t <;> exact ⟨by decide, by decide, by decide⟩
  · intro h
    obtain ⟨t, ht⟩ := h .sqrt (by decide)
    cases t <;> exact absurd ht (by decide)

/-! ## Fiat-Shamir channel event order in prove (crates/prover/src/prover.rs) -/

/-- The operations `prove` performs on the Fiat-Shamir channel, in program
order: each tree commit mixes its Merkle root, `mix_into` mixes per-component
claim data, and `LuminairInteractionElements::draw` pulls the interaction
randomness (`NodeElements` and the per-LUT `LookupElements`). -/
inductive ChannelEvent where
  | commitPreprocessed (root : ℕ)
  | mixClaim (op : OpComponent) (logSize : ℕ)
  | commitMain (root : ℕ)
  | drawInteractionElements
  | mixInteractionClaim (op : OpComponent) (sum : QM31)
  | commitInteraction (root : ℕ)
deriving DecidableEq

/-- One `if let Some(claim) = field { claim.mix_into(channel) }` arm of
`LuminairClaim::mix_into`: mixes the claim's `log_size` when present. -/
def optClaimEvent (o : Option ℕ) (t : OpComponent) : List ChannelEvent :=
  match o with
  | some ls => [ChannelEvent.mixClaim t ls]
  | none => []

/-- The channel events of `LuminairClaim::mix_into` (lib.rs 53-84). -/
def claimMixEvents (c : LuminairClaimS) : List ChannelEvent :=
  optClaimEvent c.add .add ++ optClaimEvent c.mul .mul ++
  optClaimEvent c.recip .recip ++ optClaimEvent c.sin .sin ++
  optClaimEvent c.sinLookup .sinLookup ++
  optClaimEvent c.sumReduce .sumReduce ++
  optClaimEvent c.maxReduce .maxReduce ++ optClaimEvent c.sqrt .sqrt ++
  optClaimEvent c.exp2 .exp2 ++ optClaimEvent c.exp2Lookup .exp2Lookup

/-- One arm of `LuminairInteractionClaim::mix_into`: mixes the interaction
claim's `claimed_sum` when present. -/
def optInteractionEvent (o : Option QM31) (t : OpComponent) : List ChannelEvent :=
  match o with
  | some s => [ChannelEvent.mixInteractionClaim t s]
  | none => []

/-- The channel events of `LuminairInteractionClaim::mix_into`
(lib.rs 188-219). -/
def interactionMixEvents (c : LuminairInteractionClaimS) : List ChannelEvent :=
  optInteractionEvent c.add .add ++ optInteractionEvent c.mul .mul ++
  optInteractionEvent c.recip .recip ++ optInteractionEvent c.sin .sin ++
  optInteractionEvent c.sinLookup .sinLookup ++
  optInteractionEvent c.sumReduce .sumReduce ++
  optInteractionEvent c.maxReduce .maxReduce ++
  optInteractionEvent c.sqrt .sqrt ++ optInteractionEvent c.exp2 .exp2 ++
  optInteractionEvent c.exp2Lookup .exp2Lookup

/-- The channel operations of `prove` (prover.rs 33-232), in program order:
phase-0 commit of the preprocessed trace (line 64), `main_claim.mix_into`
(line 140), phase-1 commit of the main trace (line 142),
`LuminairInteractionElements::draw` (line 149),
`interaction_claim.mix_into` (line 209), phase-2 commit of the interaction
trace (line 211). -/
def proveChannelLog (ppRoot mainRoot interRoot : ℕ) (mc : LuminairClaimS)
    (ic : LuminairInteractionClaimS) : List ChannelEvent :=
  [ChannelEvent.commitPreprocessed ppRoot] ++ claimMixEvents mc ++
  [ChannelEvent.commitMain mainRoot] ++
  [ChannelEvent.drawInteractionElements] ++ interactionMixEvents ic ++
  [ChannelEvent.commitInteraction interRoot]

/-- Every event of `claimMixEvents` is a main-claim mix. -/
theorem claimMixEvents_shape (c : LuminairClaimS) :
    ∀ e ∈ claimMixEvents c, ∃ t ls, e = ChannelEvent.mixClaim t ls := by
  have harm : ∀ (o : Option ℕ) (t : OpComponent), ∀ e ∈ optClaimEvent o t,
      ∃ t2 ls, e = ChannelEvent.mixClaim t2 ls := by
    intro o t e he
    cases o with
    | none => exact absurd he (List.not_mem_nil e)
    | some ls =>
      refine ⟨t, ls, ?_⟩
      simpa [optClaimEvent] using he
  intro e he
  simp only [claimMixEvents, List.mem_append, or_assoc] at he
  rcases he with h | h | h | h | h | h | h | h | h | h <;> exact harm _ _ e h

/-- Every event of `interactionMixEvents` is an interaction-claim mix. -/
theorem interactionMixEvents_shape (c : LuminairInteractionClaimS) :
    ∀ e ∈ interactionMixEvents c,
      ∃ t s, e = ChannelEvent.mixInteractionClaim t s := by
  have harm : ∀ (o : Option QM31) (t : OpComponent),
      ∀ e ∈ optInteractionEvent o t,
        ∃ t2 s, e = ChannelEvent.mixInteractionClaim t2 s := by
    intro o t e he
    cases o with
    | none => exact absurd he (List.not_mem_nil e)
    | some s =>
      refine ⟨t, s, ?_⟩
      simpa [optInteractionEvent] using he
  intro e he
  simp only [interactionMixEvents, List.mem_append, or_assoc] at he
  rcases he with h | h | h | h | h | h | h | h | h | h <;> exact harm _ _ e h

/-- C2: in `prove`, the interaction randomness (`NodeElements` and per-LUT
`LookupElements`) is drawn from the Fiat-Shamir channel only after the main
claim has been mixed and the main trace committed: the channel log splits
around the single draw event, with the preprocessed commit, all main-claim
mixes and the main-trace commit strictly before it (and no draw among
them), and everything after the draw belonging to the interaction phase
(no main-claim mix and no main commit). -/
theorem prove_draws_after_mix_and_commit (ppRoot mainRoot interRoot : ℕ)
    (mc : LuminairClaimS) (ic : LuminairInteractionClaimS) :
    proveChannelLog ppRoot mainRoot interRoot mc ic =
      (ChannelEvent.commitPreprocessed ppRoot ::
        (claimMixEvents mc ++ [ChannelEvent.commitMain mainRoot])) ++
      ChannelEvent.drawInteractionElements ::
        (interactionMixEvents ic ++ [ChannelEvent.commitInteraction interRoot]) ∧
    (∀ e ∈ ChannelEvent.commitPreprocessed ppRoot ::
        (claimMixEvents mc ++ [ChannelEvent.commitMain mainRoot]),
      e ≠ ChannelEvent.drawInteractionElements) ∧
    (∀ e ∈ interactionMixEvents ic ++ [ChannelEvent.commitInteraction interRoot],
      (∀ t ls, e ≠ ChannelEvent.mixClaim t ls) ∧
      (∀ root, e ≠ ChannelEvent.commitMain root)) := by
  refine ⟨by simp [proveChannelLog], ?_, ?_⟩
  · intro e he
    rcases List.mem_cons.mp he with rfl | he2
    · exact fun h => ChannelEvent.noConfusion h
    rcases List.mem_append.mp he2 with he3 | he3
    · obtain ⟨t, ls, rfl⟩ := claimMixEvents_shape mc e he3
      exact fun h => ChannelEvent.noConfusion h
    · rw [List.mem_singleton.mp he3]
      exact fun h => ChannelEvent.noConfusion h
  · intro e he
    rcases List.mem_append.mp he with he2 | he2
    · obtain ⟨t, s, rfl⟩ := interactionMixEvents_shape ic e he2
      exact ⟨fun t2 ls h => ChannelEvent.noConfusion h,
        fun root h => ChannelEvent.noConfusion h⟩
    · rw [List.mem_singleton.mp he2]
      exact ⟨fun t2 ls h => ChannelEvent.noConfusion h,
        fun root h => ChannelEvent.noConfusion h⟩

/-- C2 witness: in a concrete run (roots 1, 2, 3; add claim of log-size 5
present; add interaction claim present) the main commit event sits before
the draw and is not a draw, and the interaction mix after the draw is not a
main-claim mix. -/
theorem prove_draws_after_mix_and_commit_witness :
    ChannelEvent.commitMain 2 ≠ ChannelEvent.drawInteractionElements ∧
    (ChannelEvent.mixInteractionClaim .add ((0, 0), (0, 0)) ≠
      ChannelEvent.mixClaim .add 5) := by
  have h := prove_draws_after_mix_and_commit 1 2 3
    ⟨some 5, none, none, none, none, none, none, none, none, none⟩
    ⟨some ((0, 0), (0, 0)), none, none, none, none, none, none, none, none, none⟩
  exact ⟨h.2.1 (ChannelEvent.commitMain 2) (by decide),
    (h.2.2 (ChannelEvent.mixInteractionClaim .add ((0, 0), (0, 0)))
      (by decide)).1 .add 5⟩

/-! ## Determinism of prove (spec §8.5) -/

/-- A write schedule folded over a column: `setAll f sched col` performs, in
schedule order, the writes `col[i] := f i` for each `i` in `sched`.  This
embeds the source's parallel `for_each` over disjoint rows (witness.rs
105-115): a run of the parallel loop corresponds to some permutation of the
row indices. -/
def setAll (f : ℕ → α) : List ℕ → List α → List α
  | [], col => col
  | i :: rest, col => setAll f rest (col.set i (f i))

/-- `setAll` over an append is sequential composition. -/
theorem setAll_append (f : ℕ → α) :
    ∀ (s t : List ℕ) (col : List α),
      setAll f (s ++ t) col = setAll f t (setAll f s col)
  | [], _, _ => rfl
  | _ :: s, t, col => setAll_append f s t (col.set _ _)

/-- Writes through the same function commute: the written value depends only
on the index, so swapping two adjacent writes (equal or distinct indices)
does not change the column. -/
theorem set_write_comm (f : ℕ → α) (col : List α) (i j : ℕ) :
    (col.set i (f i)).set j (f j) = (col.set j (f j)).set i (f i) := by
  by_cases h : i = j
  · rw [h]
  · exact List.set_comm _ _ _ h

/-- Schedule-independence: two schedules that are permutations of one
another produce the same column. -/
theorem setAll_perm (f : ℕ → α) {s t : List ℕ} (h : List.Perm s t) :
    ∀ col : List α, setAll f s col = setAll f t col := by
  induction h with
  | nil => intro col; rfl
  | cons x _ ih => intro col; exact ih (col.set x (f x))
  | swap x y l =>
    intro col
    show setAll f l ((col.set y (f y)).set x (f x)) =
      setAll f l ((col.set x (f x)).set y (f y))
    rw [set_write_comm]
  | trans _ _ ih1 ih2 => intro col; rw [ih1, ih2]

/-- Writing all indices `0, …, n-1` in order overwrites the first `n`
entries of the column with `f`, leaving the tail. -/
theorem setAll_range (f : ℕ → α) :
    ∀ (n : ℕ) (col : List α), n ≤ col.length →
      setAll f (List.range n) col = (List.range n).map f ++ col.drop n := by
  intro n
  induction n with
  | zero => intro col _; simp [setAll]
  | succ m ih =>
    intro col hlen
    rw [List.range_succ, setAll_append, ih col (by omega)]
    show ((List.range m).map f ++ col.drop m).set m (f m) = _
    have hmlt : m < col.length := by omega
    rw [List.set_append_right _ _ (by simp), List.length_map,
      List.length_range, Nat.sub_self,
      List.drop_eq_getElem_cons hmlt, List.set_cons_zero]
    simp [List.map_append]

/-- Any schedule that is a permutation of the full index range produces the
fully overwritten column, independently of the column's initial contents. -/
theorem setAll_perm_range (f : ℕ → α) (sched : List ℕ) (col : List α)
    (hs : List.Perm sched (List.range col.length)) :
    setAll f sched col = (List.range col.length).map f := by
  rw [setAll_perm f hs col, setAll_range f col.length col le_rfl,
    List.drop_length, List.append_nil]

/-- A packed row of the `Exp2LookupTraceTable` after `pack_values`: the
lanes of its `multiplicity` field. -/
structure PackedExp2LookupTraceTableRow where
  multiplicity : PackedM31
deriving DecidableEq

/-- `write_trace_simd` of the exp2 lookup witness (witness.rs 92-118), with
explicit nondeterminism: the trace's multiplicity column and the
`LookupData.multiplicities` vector both start from arbitrary
(`uninitialized`) contents and are written by the parallel iterator in an
arbitrary order `sched`; each write at packed row `i` stores
`inputs[i].multiplicity` into both. -/
def write_trace_simd_sched (sched : List ℕ) (initTrace initLookup : List PackedM31)
    (inputs : List PackedExp2LookupTraceTableRow) :
    List PackedM31 × List PackedM31 :=
  (setAll (fun i => (inputs.getD i ⟨[]⟩).multiplicity) sched initTrace,
   setAll (fun i => (inputs.getD i ⟨[]⟩).multiplicity) sched initLookup)

/-- One run of the channel-relevant part of `prove`, with the run's only
sources of nondeterminism explicit: the parallel write schedule `sched` and
the uninitialized column contents `initTrace`, `initLookup` of the exp2
lookup witness.  The main-trace Merkle root is an arbitrary deterministic
function `hash` of the committed columns, so the whole channel log depends
on the generated columns. -/
def proveRunExp2Lookup (hash : List PackedM31 × List PackedM31 → ℕ)
    (sched : List ℕ) (initTrace initLookup : List PackedM31)
    (inputs : List PackedExp2LookupTraceTableRow)
    (ppRoot interRoot : ℕ) (mc : LuminairClaimS)
    (ic : LuminairInteractionClaimS) :
    (List PackedM31 × List PackedM31) × List ChannelEvent :=
  let cols := write_trace_simd_sched sched initTrace initLookup inputs
  (cols, proveChannelLog ppRoot (hash cols) interRoot mc ic)

/-- C9: `prove` is deterministic.  Two runs on identical `LuminairPie`
inputs and settings — differing only in the order in which the parallel
row writers fire and in the garbage contents of the uninitialized columns
they overwrite — produce identical witness columns, mix identical values
into the Fiat-Shamir channel in identical order (the channel log is a pure
function of the inputs and the committed columns), draw their challenges at
the same point of the identical transcript, and hence yield identical
proofs. -/
theorem prove_deterministic
    (hash : List PackedM31 × List PackedM31 → ℕ)
    (inputs : List PackedExp2LookupTraceTableRow)
    (sched₁ sched₂ : List ℕ) (it₁ il₁ it₂ il₂ : List PackedM31)
    (ppRoot interRoot : ℕ) (mc : LuminairClaimS) (ic : LuminairInteractionClaimS)
    (hs₁ : List.Perm sched₁ (List.range inputs.length))
    (hs₂ : List.Perm sched₂ (List.range inputs.length))
    (hit₁ : it₁.length = inputs.length) (hil₁ : il₁.length = inputs.length)
    (hit₂ : it₂.length = inputs.length) (hil₂ : il₂.length = inputs.length) :
    proveRunExp2Lookup hash sched₁ it₁ il₁ inputs ppRoot interRoot mc ic =
      proveRunExp2Lookup hash sched₂ it₂ il₂ inputs ppRoot interRoot mc ic := by
  have hcols : ∀ (sched : List ℕ) (init : List PackedM31),
      List.Perm sched (List.range inputs.length) →
      init.length = inputs.length →
      setAll (fun i => (inputs.getD i ⟨[]⟩).multiplicity) sched init =
        (List.range inputs.length).map
          (fun i => (inputs.getD i ⟨[]⟩).multiplicity) := by
    intro sched init hperm hlen
    rw [← hlen] at hperm
    rw [setAll_perm_range _ _ _ hperm, hlen]
  have h1 : write_trace_simd_sched sched₁ it₁ il₁ inputs =
      write_trace_simd_sched sched₂ it₂ il₂ inputs := by
    rw [write_trace_simd_sched, write_trace_simd_sched,
      hcols sched₁ it₁ hs₁ hit₁, hcols sched₁ il₁ hs₁ hil₁,
      hcols sched₂ it₂ hs₂ hit₂, hcols sched₂ il₂ hs₂ hil₂]
  rw [proveRunExp2Lookup, proveRunExp2Lookup, h1]

/-- C9 witness: two concrete runs — schedules `[1, 0]` versus `[0, 1]` and
different garbage initial columns — produce identical columns and channel
logs. -/
theorem prove_deterministic_witness :
    proveRunExp2Lookup (fun c => c.1.length) [1, 0]
      [[7], [8]] [[9], [10]] [⟨List.replicate 16 2⟩, ⟨List.replicate 16 3⟩]
      1 3 ⟨some 5, none, none, none, none, none, none, none, none, none⟩
      ⟨none, none, none, none, none, none, none, none, none, none⟩ =
    proveRunExp2Lookup (fun c => c.1.length) [0, 1]
      [[11], [12]] [[13], [14]] [⟨List.replicate 16 2⟩, ⟨List.replicate 16 3⟩]
      1 3 ⟨some 5, none, none, none, none, none, none, none, none, none⟩
      ⟨none, none, none, none, none, none, none, none, none, none⟩ :=
  prove_deterministic (fun c => c.1.length)
    [⟨List.replicate 16 2⟩, ⟨List.replicate 16 3⟩] [1, 0] [0, 1]
    [[7], [8]] [[9], [10]] [[11], [12]] [[13], [14]] 1 3
    ⟨some 5, none, none, none, none, none, none, none, none, none⟩
    ⟨none, none, none, none, none, none, none, none, none, none⟩
    (by decide) (by decide) (by decide) (by decide) (by decide) (by decide)

end LuminAIR
